import Mathlib

/-!
Verification of the accounting-kernel stub in
src/python/src/hedge_engine/ffi/__init__.py (pure-Python stubs exported
when the Cython extension is absent).

Shallow embedding choices:
* Python integers are arbitrary precision, so Money and Quantity embed as
  Lean Int with no modulus anywhere.
* A position record (a dict with keys asset_id, quantity, mark_price) embeds
  as the fixed-shape structure Position.
* A Python list of positions embeds as List Position.
* The no-op initialization hook initialize_lean embeds as init_kernel, a
  state-passing function over an abstract caller-visible state (the module
  body is empty, so the state passes through unchanged).
* For the frame/mutation claims, each list-consuming operation also gets a
  state-threaded rendering (suffix _st) that returns, next to the result,
  the caller's list as it stands after the call; the loop bodies only read,
  so the embedding passes every element through.
-/

/-- Money: signed fixed-point integer, basis points of currency.  The stub
uses Python arbitrary-precision int, embedded as Int. -/
abbrev Money := Int

/-- Quantity: signed integer count of units held. -/
abbrev Quantity := Int

/-- A position record: dict with keys asset_id, quantity, mark_price. -/
structure Position where
  asset_id : String
  quantity : Quantity
  mark_price : Money
deriving DecidableEq, Repr

/-- Embeds initialize_lean (spec rename: initialize_kernel).  The Python
body is empty (a no-op returning None); over any caller-visible state it
returns the state unchanged together with the unit result. -/
def init_kernel {σ : Type} (s : σ) : σ × Unit := (s, ())

/-- Embeds position_value: quantity * mark_price. -/
def position_value (quantity : Quantity) (mark_price : Money) : Money :=
  quantity * mark_price

/-- Embeds sum_position_values: Python sum() of the generator
p["quantity"] * p["mark_price"] for p in positions, i.e. a left fold
starting from 0. -/
def sum_position_values (positions : List Position) : Money :=
  positions.foldl (fun acc p => acc + p.quantity * p.mark_price) 0

/-- Embeds calc_nav: cash + sum_position_values positions (the int()
conversion in the source is the identity on integers). -/
def calc_nav (cash : Money) (positions : List Position) : Money :=
  cash + sum_position_values positions

/-- Embeds get_position: walk the list, return the first record whose
asset_id equals the query exactly, else None. -/
def get_position : List Position → String → Option Position
  | [], _ => none
  | p :: ps, asset_id =>
      if p.asset_id = asset_id then some p else get_position ps asset_id

/-- State-threaded rendering of get_position: next to the optional result
it returns the caller's list as it stands after the call.  The Python loop
body only reads p["asset_id"], so every element passes through unchanged. -/
def get_position_st : List Position → String → Option Position × List Position
  | [], _ => (none, [])
  | p :: ps, asset_id =>
      if p.asset_id = asset_id then (some p, p :: ps)
      else
        let r := get_position_st ps asset_id
        (r.1, p :: r.2)

/-- State-threaded rendering of the summing loop of sum_position_values:
the accumulator is threaded left to right and the caller's list is
returned next to the result. -/
def sum_loop_st (acc : Money) : List Position → Money × List Position
  | [] => (acc, [])
  | p :: ps =>
      let r := sum_loop_st (acc + p.quantity * p.mark_price) ps
      (r.1, p :: r.2)

/-- State-threaded rendering of sum_position_values. -/
def sum_position_values_st (positions : List Position) : Money × List Position :=
  sum_loop_st 0 positions

/-- State-threaded rendering of calc_nav. -/
def calc_nav_st (cash : Money) (positions : List Position) : Money × List Position :=
  let r := sum_position_values_st positions
  (cash + r.1, r.2)

/-- Helper: the left fold of sum_position_values, started from any
accumulator, equals the accumulator plus the mapped sum. -/
theorem sum_foldl_eq (P : List Position) (acc : Money) :
    P.foldl (fun a p => a + p.quantity * p.mark_price) acc
      = acc + (P.map (fun p => p.quantity * p.mark_price)).sum := by
  induction P generalizing acc with
  | nil => simp
  | cons p ps ih =>
      simp only [List.foldl_cons, List.map_cons, List.sum_cons, ih]
      ring

/-- Helper: sum_position_values as a mapped list sum. -/
theorem sum_position_values_eq_map_sum (P : List Position) :
    sum_position_values P = (P.map (fun p => p.quantity * p.mark_price)).sum := by
  simpa using sum_foldl_eq P 0

/-- C1: calc_nav returns exactly cash + sum_position_values positions, and
on the empty position list it returns the cash unchanged. -/
theorem calc_nav_exact (cash : Money) (P : List Position) :
    calc_nav cash P = cash + sum_position_values P ∧ calc_nav cash [] = cash := by
  refine ⟨rfl, ?_⟩
  simp [calc_nav, sum_position_values]

/-- C3: position_value returns the exact integer product quantity *
mark_price (signs propagate), and zero quantity yields exactly zero for
every mark price. -/
theorem position_value_exact (q : Quantity) (m : Money) :
    position_value q m = q * m ∧ position_value 0 m = 0 := by
  constructor
  · rfl
  · simp [position_value]

/-- C4: sum_position_values returns the sum of position_value over every
element of the list, and the empty list sums to zero. -/
theorem sum_position_values_spec (P : List Position) :
    sum_position_values P
        = (P.map (fun p => position_value p.quantity p.mark_price)).sum
      ∧ sum_position_values [] = 0 := by
  constructor
  · simpa [position_value] using sum_position_values_eq_map_sum P
  · rfl

/-- C5: get_position returns the first position whose asset_id is exactly
the query string (List.find? semantics), and returns the absent result
none precisely when no element of the list matches, the empty list
included. -/
theorem get_position_spec (P : List Position) (asset_id : String) :
    get_position P asset_id = P.find? (fun p => p.asset_id == asset_id)
      ∧ (get_position P asset_id = none ↔ ∀ p ∈ P, p.asset_id ≠ asset_id) := by
  induction P with
  | nil => simp [get_position]
  | cons p ps ih =>
      by_cases h : p.asset_id = asset_id
      · simp [get_position, List.find?, h]
      · have hb : (p.asset_id == asset_id) = false := by simp [h]
        constructor
        · simp [get_position, List.find?, h, hb, ih.1]
        · simp only [get_position, if_neg h, ih.2, List.mem_cons]
          constructor
          · rintro hall q (rfl | hq)
            · exact h
            · exact hall q hq
          · intro hall q hq
            exact hall q (Or.inr hq)

/-- C6: sum_position_values is invariant under any permutation of the
position list. -/
theorem sum_position_values_perm (P Q : List Position) (h : List.Perm P Q) :
    sum_position_values P = sum_position_values Q := by
  rw [sum_position_values_eq_map_sum, sum_position_values_eq_map_sum]
  exact (h.map (fun p => p.quantity * p.mark_price)).sum_eq

/-- A concrete SPY position, from the repository's test data. -/
def posSPY : Position := ⟨"SPY", 100, 500000⟩

/-- A concrete AAPL position, from the repository's test data. -/
def posAAPL : Position := ⟨"AAPL", 50, 1800000⟩

/-- Witness for C6: swapping the two test positions leaves the sum at
140,000,000 basis points. -/
theorem sum_position_values_perm_witness :
    List.Perm [posSPY, posAAPL] [posAAPL, posSPY]
      ∧ sum_position_values [posSPY, posAAPL]
          = sum_position_values [posAAPL, posSPY] :=
  ⟨List.Perm.swap posAAPL posSPY [],
   sum_position_values_perm _ _ (List.Perm.swap posAAPL posSPY [])⟩

/-- C10: sum_position_values maps list concatenation to addition, and in
consequence calc_nav over a concatenation is calc_nav over the first part
plus the sum over the second. -/
theorem sum_position_values_append (P Q : List Position) (cash : Money) :
    sum_position_values (P ++ Q) = sum_position_values P + sum_position_values Q
      ∧ calc_nav cash (P ++ Q) = calc_nav cash P + sum_position_values Q := by
  have h : sum_position_values (P ++ Q)
      = sum_position_values P + sum_position_values Q := by
    simp [sum_position_values_eq_map_sum]
  exact ⟨h, by simp [calc_nav, h]; ring⟩

/-- C9: sum_position_values and calc_nav read only the quantity and
mark_price fields: two lists agreeing pairwise on those two fields (with
arbitrary asset_id values) give equal sums and equal NAVs. -/
theorem sum_position_values_depends_only_on_numbers
    (P Q : List Position)
    (h : List.Forall₂
      (fun p q => p.quantity = q.quantity ∧ p.mark_price = q.mark_price) P Q)
    (cash : Money) :
    sum_position_values P = sum_position_values Q
      ∧ calc_nav cash P = calc_nav cash Q := by
  have hsum : sum_position_values P = sum_position_values Q := by
    rw [sum_position_values_eq_map_sum, sum_position_values_eq_map_sum]
    induction h with
    | nil => rfl
    | cons hpq _ ih => simp [hpq.1, hpq.2, ih]
  exact ⟨hsum, by simp [calc_nav, hsum]⟩

/-- A VOO position holding the same numbers as posSPY under a different
asset id. -/
def posVOO : Position := ⟨"VOO", 100, 500000⟩

/-- Witness for C9: two singleton lists holding the same numbers under
different asset ids value to the same sum and NAV. -/
theorem sum_position_values_depends_only_on_numbers_witness :
    List.Forall₂
        (fun p q : Position =>
          p.quantity = q.quantity ∧ p.mark_price = q.mark_price)
        [posSPY] [posVOO]
      ∧ sum_position_values [posSPY] = sum_position_values [posVOO]
      ∧ calc_nav 7 [posSPY] = calc_nav 7 [posVOO] := by
  have h : List.Forall₂
      (fun p q : Position => p.quantity = q.quantity ∧ p.mark_price = q.mark_price)
      [posSPY] [posVOO] :=
    List.Forall₂.cons ⟨rfl, rfl⟩ List.Forall₂.nil
  exact ⟨h,
    (sum_position_values_depends_only_on_numbers _ _ h 7).1,
    (sum_position_values_depends_only_on_numbers _ _ h 7).2⟩

/-- C7: the initialization hook never fails (it is a total function), it
returns the unit result, it leaves every caller-visible state unchanged --
hence it is idempotent -- and running it first changes the result of no
other operation, get_position included. -/
theorem init_kernel_noop {σ : Type} (s : σ) (P : List Position)
    (asset_id : String) :
    init_kernel s = (s, ())
      ∧ init_kernel (init_kernel s).1 = init_kernel s
      ∧ get_position (init_kernel P).1 asset_id = get_position P asset_id := by
  exact ⟨rfl, rfl, rfl⟩

/-- Helper: sum_loop_st threads the list through unchanged and its result
is the fold of the pure sum. -/
theorem sum_loop_st_eq (P : List Position) (acc : Money) :
    sum_loop_st acc P
      = (P.foldl (fun a p => a + p.quantity * p.mark_price) acc, P) := by
  induction P generalizing acc with
  | nil => rfl
  | cons p ps ih => simp [sum_loop_st, ih]

/-- Helper: get_position_st threads the list through unchanged and agrees
with the pure get_position. -/
theorem get_position_st_eq (P : List Position) (asset_id : String) :
    get_position_st P asset_id = (get_position P asset_id, P) := by
  induction P with
  | nil => rfl
  | cons p ps ih =>
      by_cases h : p.asset_id = asset_id
      · simp [get_position_st, get_position, h]
      · simp [get_position_st, get_position, h, ih]

/-- C8: no kernel operation mutates its input: the state-threaded
renderings of get_position, sum_position_values and calc_nav return the
caller's position list exactly as it was, and their results agree with
the pure functions. -/
theorem kernel_ops_do_not_mutate (P : List Position) (asset_id : String)
    (cash : Money) :
    (get_position_st P asset_id).2 = P
      ∧ (get_position_st P asset_id).1 = get_position P asset_id
      ∧ (sum_position_values_st P).2 = P
      ∧ (sum_position_values_st P).1 = sum_position_values P
      ∧ (calc_nav_st cash P).2 = P
      ∧ (calc_nav_st cash P).1 = calc_nav cash P := by
  refine ⟨?_, ?_, ?_, ?_, ?_, ?_⟩ <;>
    simp [get_position_st_eq, sum_position_values_st, sum_loop_st_eq,
      calc_nav_st, sum_position_values, calc_nav]

/-- The largest signed 64-bit value, the Money bound the spec recommends. -/
def moneyMax : Int := 2 ^ 63 - 1

/-- C2 counterexample: at quantity and mark price both equal to the Money
bound, the stub returns the exact mathematical product -- a value far
above the Money range -- instead of signalling an overflow error: the
embedded function is total into Money with no error outcome, so no error
is ever raised, refuting the claim at this concrete input. -/
theorem position_value_no_overflow_error :
    position_value moneyMax moneyMax = moneyMax * moneyMax
      ∧ moneyMax * moneyMax > moneyMax := by
  constructor
  · rfl
  · decide

/-- C2 amended: the stubs compute with arbitrary-precision integers, so on
every input -- the ones whose true result exceeds the signed 64-bit Money
range included -- position_value, sum_position_values and calc_nav return
the exact mathematical result, never a wrapped or truncated value, and
signal no overflow error. -/
theorem stub_arithmetic_is_exact (q : Quantity) (m cash : Money)
    (P : List Position) :
    position_value q m = q * m
      ∧ sum_position_values P = (P.map (fun p => p.quantity * p.mark_price)).sum
      ∧ calc_nav cash P
          = cash + (P.map (fun p => p.quantity * p.mark_price)).sum := by
  refine ⟨rfl, sum_position_values_eq_map_sum P, ?_⟩
  simp [calc_nav, sum_position_values_eq_map_sum]
